import Mathlib

/-!
Verification of the pysaga saga-execution engine (src/pysaga/actionstep.py and
src/pysaga/saga.py) against its natural-language specification.

Embedding conventions:
* Python `dict`s (keyword-argument mappings, `Dict[any, any]`) are association
  lists `Dict V := List (Nat × V)`; keys model Python keyword names / dict keys.
  `Dict.set` is `d[k] = v` (replace in place, else append) and `Dict.update`
  is `d.update(e)`, exactly Python's semantics including key order.
* Exceptions are the inductive `Exc`, mirroring the repository's class
  hierarchy: `userExc` stands for arbitrary user exceptions, and
  `ActionError`, `SagaError`, `SagaCompensationError` are all direct
  subclasses of `Exception` (none is a subclass of another), which
  `Exc.isInstanceOfSagaError` reflects for the `except SagaError` clause.
* A step's `_action` is a function `Dict V → Except Exc (Option (Dict V))`
  (`Option` models a Python action returning `None`); `_compensation` is
  `Dict V → Except Exc Bool`.  `ActionStep.act` mutates the stored
  `_action_step_kwargs`, so it returns the updated step next to its result.
* Execution is instrumented with a trace of events `Ev` recording each `act`
  invocation (with the keyword arguments passed to it) and each `compensate`
  invocation; the trace changes nothing about the computed results and lets
  invocation-order claims be stated.
-/

/-- Python `dict` with `Nat` keys: an association list in insertion order. -/
abbrev Dict (V : Type) := List (Nat × V)

/-- Python `d[k]` lookup (`None` when absent). -/
def Dict.get? {V : Type} : Dict V → Nat → Option V
  | [], _ => none
  | p :: rest, k => if p.1 = k then some p.2 else Dict.get? rest k

/-- Python `d[k] = v`: replace the value in place when the key exists,
otherwise append the new pair at the end. -/
def Dict.set {V : Type} : Dict V → Nat → V → Dict V
  | [], k, v => [(k, v)]
  | p :: rest, k, v => if p.1 = k then (k, v) :: rest else p :: Dict.set rest k v

/-- Python `d.update(e)`: assign every pair of `e` into `d`, in `e`'s order. -/
def Dict.update {V : Type} (d e : Dict V) : Dict V :=
  e.foldl (fun acc p => Dict.set acc p.1 p.2) d

/-- The exception values of the repository.  `userExc` models an arbitrary
exception raised inside user-supplied action/compensation code (its `Nat`
payload distinguishes instances).  The other constructors are the classes
`ActionError` (actionstep.py), `SagaError` and `SagaCompensationError`
(saga.py), each a direct subclass of `Exception`. -/
inductive Exc where
  | userExc (code : Nat)
  | actionError (action_name : Nat) (action_exception : Exc)
  | sagaError (action_exception : Exc)
  | sagaCompensationError (compensation_exceptions : List Exc)

/-- Python `isinstance(e, SagaError)`: in the repository `ActionError` and
`SagaError` are sibling subclasses of `Exception`, so only a `SagaError`
instance itself satisfies the check. -/
def Exc.isInstanceOfSagaError : Exc → Bool
  | Exc.sagaError _ => true
  | _ => false

/-- Instrumentation event: `act i args` records that step number `i`'s `act`
was invoked with keyword arguments `args`; `comp i` records that step number
`i`'s `compensate` was invoked. -/
inductive Ev (V : Type) where
  | act (i : Nat) (args : Dict V)
  | comp (i : Nat)

/-- True exactly on compensation events. -/
def Ev.isComp {V : Type} : Ev V → Bool
  | Ev.comp _ => true
  | Ev.act _ _ => false

/-- `ActionStep` (actionstep.py): `className` models `self.__class__.__name__`
(a `Nat` identifier), `action_step_kwargs` the stored constructor kwargs,
`action` the abstract `_action` property and `compensation` the abstract
`_compensation` property (for `LambdaActionStep` these are the injected
callables). -/
structure ActionStep (V : Type) where
  className : Nat
  action_step_kwargs : Dict V
  action : Dict V → Except Exc (Option (Dict V))
  compensation : Dict V → Except Exc Bool

/-- `ActionStep.act`: first `self._action_step_kwargs.update(action_kwargs)`
(a mutation, hence the updated step in the returned pair), then call
`self._action(**self._action_step_kwargs)`; any exception it raises is
re-raised as `ActionError(action_name=self.__class__.__name__,
action_exception=e)`. -/
def ActionStep.act {V : Type} (s : ActionStep V) (action_kwargs : Dict V) :
    ActionStep V × Except Exc (Option (Dict V)) :=
  let merged := Dict.update s.action_step_kwargs action_kwargs
  let s2 := { s with action_step_kwargs := merged }
  match s.action merged with
  | Except.error e => (s2, Except.error (Exc.actionError s.className e))
  | Except.ok result => (s2, Except.ok result)

/-- `ActionStep.compensate`: `self._compensation(**self._action_step_kwargs)`. -/
def ActionStep.compensate {V : Type} (s : ActionStep V) : Except Exc Bool :=
  s.compensation s.action_step_kwargs

/-- `SagaResult` (saga.py): all fields as initialised by `SagaResult.__init__`. -/
structure SagaResult (V : Type) where
  success : Option Bool := none
  compensations_success : Bool := true
  message : Option Nat := none
  result_args : Dict V := []
  saga_error : Option Exc := none
  saga_compensation_error : Option Exc := none

/-- `Saga` (saga.py): the ordered list of `ActionStep`s. -/
structure Saga (V : Type) where
  action_steps : List (ActionStep V)

/-- The loop body of `Saga.__run_compensation`: walk the completed steps in
the list's (forward) order, call `compensate()` on each inside
`try/except Exception`, collecting raised exceptions into the
`SagaCompensationError`'s list (created on the first failure, appended to
afterwards).  The accumulator is `none` while no compensation has raised.
Steps are paired with their index for the instrumentation trace. -/
def Saga.runCompensationLoop {V : Type} :
    List (Nat × ActionStep V) → Option (List Exc) → Option (List Exc) × List (Ev V)
  | [], acc => (acc, [])
  | p :: rest, acc =>
    let acc2 :=
      match p.2.compensate with
      | Except.error e =>
        match acc with
        | some l => some (l ++ [e])
        | none => some [e]
      | Except.ok _ => acc
    let r2 := Saga.runCompensationLoop rest acc2
    (r2.1, Ev.comp p.1 :: r2.2)

/-- `Saga.__run_compensation`: after the loop, when a
`SagaCompensationError` was created, set `compensations_success = False` and
store it in the result; otherwise return the result unchanged. -/
def Saga.runCompensation {V : Type} (action_steps : List (Nat × ActionStep V))
    (saga_result : SagaResult V) : SagaResult V × List (Ev V) :=
  let r := Saga.runCompensationLoop action_steps none
  match r.1 with
  | some l =>
    ({ saga_result with
        compensations_success := false,
        saga_compensation_error := some (Exc.sagaCompensationError l) }, r.2)
  | none => (saga_result, r.2)

/-- The `for action in self.action_steps` loop of `Saga.execute`, with the
running `saga_action_args`, the `actions_done` list (each step appended,
with its updated kwargs, before its action runs) and the `saga_result` under
construction.  On an exception from `act`, the `except SagaError` clause
applies only when the exception is an instance of `SagaError`; otherwise the
exception propagates out of `execute` (`Except.error`).  On success the
running arguments are replaced by `act`'s return value with `None` coerced
to `{}` (`... or {}`), and that same value is merged into
`saga_result.result_args`. -/
def Saga.executeFrom {V : Type} (i : Nat) (steps : List (ActionStep V))
    (saga_action_args : Dict V) (actions_done : List (Nat × ActionStep V))
    (saga_result : SagaResult V) : Except Exc (SagaResult V) × List (Ev V) :=
  match steps with
  | [] => (Except.ok { saga_result with success := some true }, [])
  | action :: rest =>
    let stepRes := ActionStep.act action saga_action_args
    let done2 := actions_done ++ [(i, stepRes.1)]
    match stepRes.2 with
    | Except.error e =>
      if e.isInstanceOfSagaError then
        let res2 := { saga_result with success := some false, saga_error := some e }
        let comp := Saga.runCompensation done2 res2
        (Except.ok comp.1, Ev.act i saga_action_args :: comp.2)
      else
        (Except.error e, [Ev.act i saga_action_args])
    | Except.ok result =>
      let args2 := result.getD []
      let r2 := Saga.executeFrom (i+1) rest args2 done2
        { saga_result with result_args := Dict.update saga_result.result_args args2 }
      (r2.1, Ev.act i saga_action_args :: r2.2)

/-- `Saga.execute(**first_action_args)`: run the loop from a fresh
`SagaResult`, empty `actions_done` and the call's keyword arguments. -/
def Saga.execute {V : Type} (saga : Saga V) (first_action_args : Dict V) :
    Except Exc (SagaResult V) × List (Ev V) :=
  Saga.executeFrom 0 saga.action_steps first_action_args [] {}

/-- The exceptions raised by the completed steps' compensations, in the
forward order `__run_compensation` iterates them. -/
def compExceptions {V : Type} : List (Nat × ActionStep V) → List Exc
  | [] => []
  | p :: rest =>
    match p.2.compensate with
    | Except.error e => e :: compExceptions rest
    | Except.ok _ => compExceptions rest

/-- A step list seen through what `__run_compensation` can observe of it:
the index and the outcome of `compensate()`. -/
def compView {V : Type} (steps : List (Nat × ActionStep V)) :
    List (Nat × Except Exc Bool) :=
  steps.map fun p => (p.1, ActionStep.compensate p.2)

/-- The keyword-argument dictionaries passed to the successive `act` calls,
read off an instrumentation trace. -/
def actArgs {V : Type} : List (Ev V) → List (Dict V)
  | [] => []
  | Ev.act _ a :: rest => a :: actArgs rest
  | Ev.comp _ :: rest => actArgs rest

/-- The chain of keyword arguments `execute` hands to the successive steps:
the first step receives the `execute` call arguments, and each later step
receives exactly the previous step's returned mapping with `None` coerced to
`{}` — the running mapping is replaced, not accumulated.  The chain stops
with the first step whose `act` raises. -/
def chainedInputs {V : Type} : List (ActionStep V) → Dict V → List (Dict V)
  | [], _ => []
  | s :: rest, args =>
    match (ActionStep.act s args).2 with
    | Except.error _ => [args]
    | Except.ok result => args :: chainedInputs rest (result.getD [])

/-- The mappings returned by the steps' actions (with `None` coerced to `{}`)
when every action succeeds, and `none` when some action raises. -/
def stepOutputs {V : Type} : List (ActionStep V) → Dict V → Option (List (Dict V))
  | [], _ => some []
  | s :: rest, args =>
    match (ActionStep.act s args).2 with
    | Except.error _ => none
    | Except.ok result =>
      match stepOutputs rest (result.getD []) with
      | none => none
      | some outs => some (result.getD [] :: outs)

/-- Union of a list of mappings, a later mapping's value winning on any key
conflict (the spec's reading of "union of all steps' returned mappings"). -/
def unionAll {V : Type} (ds : List (Dict V)) : Dict V :=
  ds.foldl Dict.update []

/-- A step identical to `s` except that where its action returns `None` it
returns the empty mapping instead. -/
def ActionStep.withEmptyForNone {V : Type} (s : ActionStep V) : ActionStep V :=
  { s with action := fun d =>
      match s.action d with
      | Except.ok none => Except.ok (some [])
      | r => r }

/-! Concrete steps used in counterexamples and witnesses.  Keys: `1` is the
key produced by the first step ("a"), `2`/`3` are probe outputs, `9` is a key
passed to `execute` ("x"), `4` is the key produced by a second successful
step ("b").  Class names and exception payloads are likewise numerals. -/

/-- A step whose action succeeds and returns the mapping `{1: 10}`. -/
def okStepA : ActionStep Nat :=
  { className := 1, action_step_kwargs := [],
    action := fun _ => Except.ok (some [(1, 10)]),
    compensation := fun _ => Except.ok true }

/-- A second successful step, returning `{4: 20}`. -/
def okStepB : ActionStep Nat :=
  { className := 8, action_step_kwargs := [],
    action := fun _ => Except.ok (some [(4, 20)]),
    compensation := fun _ => Except.ok true }

/-- A step whose action raises a user exception (payload `7`). -/
def boomStep : ActionStep Nat :=
  { className := 2, action_step_kwargs := [],
    action := fun _ => Except.error (Exc.userExc 7),
    compensation := fun _ => Except.ok true }

/-- A probe step: reports (under key `2`) whether key `9` — passed to
`execute` — is present in the arguments its action receives. -/
def probeX : ActionStep Nat :=
  { className := 3, action_step_kwargs := [],
    action := fun d => Except.ok (some [(2, if (Dict.get? d 9).isSome then 1 else 0)]),
    compensation := fun _ => Except.ok true }

/-- A step whose action returns `None`. -/
def noneStep : ActionStep Nat :=
  { className := 4, action_step_kwargs := [],
    action := fun _ => Except.ok none,
    compensation := fun _ => Except.ok true }

/-- A probe step: reports (under key `3`) whether key `1` — produced by an
earlier step — is present in the arguments its action receives. -/
def probeA : ActionStep Nat :=
  { className := 5, action_step_kwargs := [],
    action := fun d => Except.ok (some [(3, if (Dict.get? d 1).isSome then 1 else 0)]),
    compensation := fun _ => Except.ok true }

/-- A step used to exercise `act`'s exception wrapping. -/
def failStep : ActionStep Nat :=
  { className := 6, action_step_kwargs := [(5, 0)],
    action := fun _ => Except.error (Exc.userExc 7),
    compensation := fun _ => Except.ok true }

/-- A step whose compensation returns `False` without raising. -/
def falseCompStep : ActionStep Nat :=
  { className := 7, action_step_kwargs := [],
    action := fun _ => Except.ok none,
    compensation := fun _ => Except.ok false }

/-- A step whose compensation raises a user exception (payload `8`). -/
def failCompStep : ActionStep Nat :=
  { className := 9, action_step_kwargs := [],
    action := fun _ => Except.ok none,
    compensation := fun _ => Except.error (Exc.userExc 8) }

/-! ## Claim theorems (concrete evaluations) -/

/-- C1: the claim says an action failure never escapes `execute` as a raw
exception.  Evaluating the code at the failing input — a one-step saga whose
action raises — shows the opposite: `act` wraps the failure in an
`ActionError`, the `except SagaError` clause does not match it (`ActionError`
is not a `SagaError` subclass), and the exception propagates out of
`execute` instead of a `SagaResult` being returned. -/
theorem execute_lets_action_failure_escape :
    (Saga.execute ⟨[boomStep]⟩ ([] : Dict Nat)).1 =
      Except.error (Exc.actionError 2 (Exc.userExc 7)) := rfl

/-- C2: the claim says that when step 2 of a two-step saga fails, the
compensations of steps 2 and 1 each run once, in that order.  Evaluating the
code: the wrapped `ActionError` escapes `execute` and the trace contains the
two action invocations and no compensation event at all. -/
theorem failing_saga_invokes_no_compensation :
    Saga.execute ⟨[okStepA, boomStep]⟩ ([] : Dict Nat) =
      (Except.error (Exc.actionError 2 (Exc.userExc 7)),
       [Ev.act 0 [], Ev.act 1 [(1, 10)]]) := rfl

/-- C3 counterexample: the claim says the original `execute` call arguments
(and every earlier step's outputs) are part of the input available to every
subsequent step's action.  Here `execute` is called with `{9: 5}`, the first
step returns `{1: 10}`, and the second step's probe records that key `9` is
absent from its input (output `{2: 0}`), because the running mapping was
replaced by the first step's output — the trace shows `act` 1 received
exactly `{1: 10}`. -/
theorem later_step_misses_execute_args :
    Saga.execute ⟨[okStepA, probeX]⟩ ([(9, 5)] : Dict Nat) =
      (Except.ok { success := some true, compensations_success := true,
                   message := none, result_args := [(1, 10), (2, 0)],
                   saga_error := none, saga_compensation_error := none },
       [Ev.act 0 [(9, 5)], Ev.act 1 [(1, 10)]]) := rfl

/-- C9 counterexample: the claim says a `None`-returning step leaves
previously propagated values intact for the subsequent step.  Here step 0
propagates `{1: 10}`, step 1 returns `None`, and step 2's probe records that
key `1` is absent from its input (output `{3: 0}`): the `None` (coerced to
`{}`) replaced the running mapping, wiping the propagated value — though
`result_args` keeps `{1: 10}`. -/
theorem none_step_wipes_running_args :
    Saga.execute ⟨[okStepA, noneStep, probeA]⟩ ([] : Dict Nat) =
      (Except.ok { success := some true, compensations_success := true,
                   message := none, result_args := [(1, 10), (3, 0)],
                   saga_error := none, saga_compensation_error := none },
       [Ev.act 0 [], Ev.act 1 [(1, 10)], Ev.act 2 []]) := rfl

/-- C7 counterexample: the claim says a compensation returning `False`
without raising is surfaced through `compensations_success = false`.  In the
code the return value of `compensate()` is discarded: running the
compensation pass over a step whose compensation returns `False` leaves
`compensations_success = true` and records no compensation error. -/
theorem false_compensation_not_surfaced :
    (Saga.runCompensation [(0, falseCompStep)] ({} : SagaResult Nat)).1.compensations_success
        = true ∧
    (Saga.runCompensation [(0, falseCompStep)] ({} : SagaResult Nat)).1.saga_compensation_error
        = none :=
  ⟨rfl, rfl⟩

/-- C10: executing a saga built from an empty step list returns, for every
initial argument mapping, a successful `SagaResult` with empty
`result_args`, `compensations_success = true` and neither error set; no step
is ever invoked. -/
theorem empty_saga_succeeds {V : Type} (args : Dict V) :
    Saga.execute ⟨([] : List (ActionStep V))⟩ args =
      (Except.ok { success := some true, compensations_success := true,
                   message := none, result_args := [],
                   saga_error := none, saga_compensation_error := none },
       ([] : List (Ev V))) := rfl

/-! ## General lemmas about the compensation pass -/

/-- Running the compensation loop with an already-created exception list
appends the exceptions the remaining compensations raise, and visits every
remaining step. -/
theorem runCompensationLoop_some {V : Type} (s : List (Nat × ActionStep V)) (l : List Exc) :
    Saga.runCompensationLoop s (some l) =
      (some (l ++ compExceptions s), s.map fun p => Ev.comp p.1) := by
  induction s generalizing l with
  | nil => simp [Saga.runCompensationLoop, compExceptions]
  | cons p rest ih =>
    cases h : ActionStep.compensate p.2 with
    | error e => simp [Saga.runCompensationLoop, compExceptions, h, ih]
    | ok b => simp [Saga.runCompensationLoop, compExceptions, h, ih]

/-- Running the compensation loop from scratch produces exactly the list of
exceptions raised by the compensations (no list object when none raised),
and visits every step. -/
theorem runCompensationLoop_none {V : Type} (s : List (Nat × ActionStep V)) :
    Saga.runCompensationLoop s none =
      ((match compExceptions s with
        | [] => none
        | e :: es => some (e :: es)), s.map fun p => Ev.comp p.1) := by
  induction s with
  | nil => simp [Saga.runCompensationLoop, compExceptions]
  | cons p rest ih =>
    cases h : ActionStep.compensate p.2 with
    | error e =>
      simp [Saga.runCompensationLoop, compExceptions, h, runCompensationLoop_some]
    | ok b =>
      simp [Saga.runCompensationLoop, compExceptions, h, ih]

/-- Full characterisation of `__run_compensation`: every completed step's
compensation is invoked, in the forward order of the list handed to it, and
the result is unchanged when no compensation raised, else it carries all
raised exceptions in one `SagaCompensationError`. -/
theorem runCompensation_spec {V : Type} (s : List (Nat × ActionStep V)) (res : SagaResult V) :
    Saga.runCompensation s res =
      ((match compExceptions s with
        | [] => res
        | e :: es => { res with
            compensations_success := false,
            saga_compensation_error := some (Exc.sagaCompensationError (e :: es)) }),
       s.map fun p => Ev.comp p.1) := by
  unfold Saga.runCompensation
  rw [runCompensationLoop_none]
  cases h : compExceptions s with
  | nil => simp [h]
  | cons e es => simp [h]

/-- Every exception coming out of `ActionStep.act` is an `ActionError`
wrapping the underlying action's exception. -/
theorem act_error_shape {V : Type} (s : ActionStep V) (kwargs : Dict V) (e : Exc)
    (h : (ActionStep.act s kwargs).2 = Except.error e) :
    ∃ e0, e = Exc.actionError s.className e0 := by
  cases h0 : s.action (Dict.update s.action_step_kwargs kwargs) with
  | error e1 =>
    simp [ActionStep.act, h0] at h
    exact ⟨e1, h.symm⟩
  | ok r => simp [ActionStep.act, h0] at h

/-! ## Claim theorems (general statements) -/

/-- C6: compensation is best-effort and exhaustive — for every list of
completed steps, every step's compensation is invoked (in the loop's order,
an exception in one not stopping the others), all raised exceptions are
collected into a single `SagaCompensationError` whose list is exactly the
raised exceptions (hence never empty when the error exists), and when none
raises the result — in particular `compensations_success = true` — is left
unchanged. -/
theorem run_compensation_collects_all {V : Type} (steps : List (Nat × ActionStep V))
    (res : SagaResult V) :
    (Saga.runCompensation steps res).2 = (steps.map fun p => Ev.comp p.1) ∧
    (compExceptions steps = [] → (Saga.runCompensation steps res).1 = res) ∧
    (compExceptions steps ≠ [] → (Saga.runCompensation steps res).1 =
      { res with
          compensations_success := false,
          saga_compensation_error :=
            some (Exc.sagaCompensationError (compExceptions steps)) }) := by
  rw [runCompensation_spec]
  refine ⟨rfl, ?_, ?_⟩
  · intro h; simp [h]
  · intro h
    cases hc : compExceptions steps with
    | nil => exact absurd hc h
    | cons e es => simp [hc]

/-- Witness for C6 at a concrete input: one completed step whose
compensation raises; the error aggregates that exception and
`compensations_success` flips to `false`. -/
theorem run_compensation_collects_all_witness :
    (Saga.runCompensation [(0, failCompStep)] ({} : SagaResult Nat)).1 =
      { ({} : SagaResult Nat) with
          compensations_success := false,
          saga_compensation_error :=
            some (Exc.sagaCompensationError [Exc.userExc 8]) } :=
  (run_compensation_collects_all [(0, failCompStep)] ({} : SagaResult Nat)).2.2
    (by simp [compExceptions, ActionStep.compensate, failCompStep])

/-- Helper for C7: when no compensation raises, no exception is collected. -/
theorem compExceptions_eq_nil {V : Type} (steps : List (Nat × ActionStep V))
    (h : ∀ p ∈ steps, ∃ b, ActionStep.compensate p.2 = Except.ok b) :
    compExceptions steps = [] := by
  induction steps with
  | nil => rfl
  | cons p rest ih =>
    obtain ⟨b, hb⟩ := h p (List.mem_cons_self p rest)
    simp only [compExceptions, hb]
    exact ih fun q hq => h q (List.mem_cons_of_mem p hq)

/-- C7 (amended): a compensation that returns a boolean — `False` included —
without raising is ignored by `__run_compensation`: when every compensation
returns instead of raising, the saga result is left completely unchanged, so
`compensations_success` stays as it was and nothing is recorded. -/
theorem false_compensation_ignored {V : Type} (steps : List (Nat × ActionStep V))
    (res : SagaResult V)
    (h : ∀ p ∈ steps, ∃ b, ActionStep.compensate p.2 = Except.ok b) :
    (Saga.runCompensation steps res).1 = res := by
  have hc := compExceptions_eq_nil steps h
  simp [runCompensation_spec, hc]

/-- Witness for C7's amended claim at a concrete input: a completed step
whose compensation returns `False`; the result is unchanged. -/
theorem false_compensation_ignored_witness :
    (Saga.runCompensation [(0, falseCompStep)] ({} : SagaResult Nat)).1 =
      ({} : SagaResult Nat) :=
  false_compensation_ignored [(0, falseCompStep)] ({} : SagaResult Nat)
    (by
      intro p hp
      rw [List.mem_singleton] at hp
      subst hp
      exact ⟨false, rfl⟩)

/-- C8: `ActionStep.act` merges the call kwargs into the stored constructor
kwargs (call kwargs winning), runs the action on the merged mapping, returns
its result mapping on success, and re-raises any exception wrapped in an
`ActionError` carrying the step's class name and the original exception —
so a raw exception never escapes `act`. -/
theorem act_wraps_action_exceptions {V : Type} (s : ActionStep V) (kwargs : Dict V) :
    (∀ e, s.action (Dict.update s.action_step_kwargs kwargs) = Except.error e →
        (ActionStep.act s kwargs).2 = Except.error (Exc.actionError s.className e)) ∧
    (∀ r, s.action (Dict.update s.action_step_kwargs kwargs) = Except.ok r →
        (ActionStep.act s kwargs).2 = Except.ok r) ∧
    (∀ e2, (ActionStep.act s kwargs).2 = Except.error e2 →
        ∃ e, e2 = Exc.actionError s.className e ∧
          s.action (Dict.update s.action_step_kwargs kwargs) = Except.error e) := by
  cases h : s.action (Dict.update s.action_step_kwargs kwargs) with
  | error e =>
    have hact : (ActionStep.act s kwargs).2 =
        Except.error (Exc.actionError s.className e) := by
      simp [ActionStep.act, h]
    refine ⟨?_, ?_, ?_⟩
    · intro e1 h1
      injection h1 with h1
      subst h1
      exact hact
    · intro r1 h1
      exact Except.noConfusion h1
    · intro e2 h2
      rw [hact] at h2
      injection h2 with h2
      exact ⟨e, h2.symm, rfl⟩
  | ok r =>
    have hact : (ActionStep.act s kwargs).2 = Except.ok r := by
      simp [ActionStep.act, h]
    refine ⟨?_, ?_, ?_⟩
    · intro e1 h1
      exact Except.noConfusion h1
    · intro r1 h1
      injection h1 with h1
      subst h1
      exact hact
    · intro e2 h2
      rw [hact] at h2
      exact Except.noConfusion h2

/-- Witness for C8 at a concrete input: a step whose action raises a user
exception; `act` reports it wrapped as an `ActionError` with the step's
class name. -/
theorem act_wraps_action_exceptions_witness :
    (ActionStep.act failStep [(9, 1)]).2 =
      Except.error (Exc.actionError 6 (Exc.userExc 7)) :=
  (act_wraps_action_exceptions failStep [(9, 1)]).1 (Exc.userExc 7) rfl

/-! ## General lemmas about the execution loop -/

/-- Loop invariant for C5: `execute`'s loop never touches `saga_error`,
`saga_compensation_error` or `compensations_success` except on the
(compensation) failure paths, and every `SagaResult` it returns satisfies
the error/flag correspondences. -/
theorem executeFrom_flags {V : Type} (steps : List (ActionStep V)) :
    ∀ i args done res r, res.saga_error = none →
      res.saga_compensation_error = none →
      res.compensations_success = true →
      (Saga.executeFrom i steps args done res).1 = Except.ok r →
      ((r.saga_error.isSome ↔ r.success = some false) ∧
       (r.saga_compensation_error.isSome ↔ r.compensations_success = false)) := by
  induction steps with
  | nil =>
    intro i args done res r h1 h2 h3 h4
    simp only [Saga.executeFrom, Except.ok.injEq] at h4
    subst h4
    simp [h1, h2, h3]
  | cons s rest ih =>
    intro i args done res r h1 h2 h3 h4
    cases hr : (ActionStep.act s args).2 with
    | error e =>
      obtain ⟨e0, rfl⟩ := act_error_shape s args e hr
      simp [Saga.executeFrom, hr, Exc.isInstanceOfSagaError] at h4
    | ok result =>
      simp only [Saga.executeFrom, hr] at h4
      exact ih (i+1) (result.getD []) _ _ r (by simpa using h1) (by simpa using h2)
        (by simpa using h3) h4

/-- C5: every `SagaResult` returned by `Saga.execute` has `saga_error` set
exactly when `success = false` and `saga_compensation_error` set exactly
when `compensations_success = false`. -/
theorem result_error_flags_invariant {V : Type} (saga : Saga V) (args : Dict V)
    (r : SagaResult V) (h : (Saga.execute saga args).1 = Except.ok r) :
    (r.saga_error.isSome ↔ r.success = some false) ∧
    (r.saga_compensation_error.isSome ↔ r.compensations_success = false) :=
  executeFrom_flags saga.action_steps 0 args [] {} r rfl rfl rfl h

/-- Witness for C5 at a concrete input: the result of executing the empty
saga satisfies both correspondences. -/
theorem result_error_flags_invariant_witness :
    ((({ success := some true } : SagaResult Nat).saga_error.isSome ↔
        ({ success := some true } : SagaResult Nat).success = some false) ∧
     (({ success := some true } : SagaResult Nat).saga_compensation_error.isSome ↔
        ({ success := some true } : SagaResult Nat).compensations_success = false)) :=
  result_error_flags_invariant ⟨[]⟩ ([] : Dict Nat) { success := some true } rfl

/-- Loop invariant for C4: when every remaining action succeeds, the loop
returns success, folds the steps' outputs into `result_args` in order, and
emits no compensation event. -/
theorem executeFrom_all_ok {V : Type} (steps : List (ActionStep V)) :
    ∀ i args done res outs, stepOutputs steps args = some outs →
      (Saga.executeFrom i steps args done res).1 =
        Except.ok { res with
          success := some true,
          result_args := outs.foldl Dict.update res.result_args } ∧
      (Saga.executeFrom i steps args done res).2.filter Ev.isComp = [] := by
  induction steps with
  | nil =>
    intro i args done res outs h
    simp only [stepOutputs, Option.some.injEq] at h
    subst h
    simp [Saga.executeFrom]
  | cons s rest ih =>
    intro i args done res outs h
    cases hr : (ActionStep.act s args).2 with
    | error e => simp [stepOutputs, hr] at h
    | ok result =>
      simp only [stepOutputs, hr] at h
      cases ho : stepOutputs rest (result.getD []) with
      | none => rw [ho] at h; exact Option.noConfusion h
      | some outs2 =>
        rw [ho] at h
        injection h with h
        subst h
        have hrec := ih (i+1) (result.getD []) (done ++ [(i, (ActionStep.act s args).1)])
          { res with result_args := Dict.update res.result_args (result.getD []) } outs2 ho
        constructor
        · simp only [Saga.executeFrom, hr]
          rw [hrec.1]
          rfl
        · simp only [Saga.executeFrom, hr, List.filter]
          simpa [Ev.isComp] using hrec.2

/-- C4: for every saga in which every step's action succeeds, `execute`
returns a `SagaResult` with `success = true`, no error, untouched
`compensations_success`, and `result_args` equal to the union of all steps'
returned mappings with a later step's value winning on key conflicts; no
compensation is ever invoked. -/
theorem all_success_result {V : Type} (saga : Saga V) (args : Dict V)
    (outs : List (Dict V)) (h : stepOutputs saga.action_steps args = some outs) :
    (Saga.execute saga args).1 =
      Except.ok { success := some true, compensations_success := true,
                  message := none, result_args := unionAll outs,
                  saga_error := none, saga_compensation_error := none } ∧
    (Saga.execute saga args).2.filter Ev.isComp = [] :=
  executeFrom_all_ok saga.action_steps 0 args [] {} outs h

/-- Witness for C4 at a concrete input: a two-step saga whose actions return
`{1: 10}` and `{4: 20}`; the result arguments are their union. -/
theorem all_success_result_witness :
    (Saga.execute ⟨[okStepA, okStepB]⟩ ([] : Dict Nat)).1 =
      Except.ok { success := some true, compensations_success := true,
                  message := none, result_args := [(1, 10), (4, 20)],
                  saga_error := none, saga_compensation_error := none } :=
  (all_success_result ⟨[okStepA, okStepB]⟩ [] [[(1, 10)], [(4, 20)]] rfl).1

/-- Compensation events carry no `act` arguments. -/
theorem actArgs_comp_map {V : Type} (l : List (Nat × ActionStep V)) :
    actArgs ((l.map fun p => Ev.comp p.1) : List (Ev V)) = [] := by
  induction l with
  | nil => rfl
  | cons p rest ih => simpa [actArgs] using ih

/-- Loop lemma for C3: the arguments handed to the successive `act` calls
are exactly the replacement chain `chainedInputs`. -/
theorem executeFrom_actArgs {V : Type} (steps : List (ActionStep V)) :
    ∀ i args done res,
      actArgs (Saga.executeFrom i steps args done res).2 =
        chainedInputs steps args := by
  induction steps with
  | nil => intro i args done res; rfl
  | cons s rest ih =>
    intro i args done res
    cases hr : (ActionStep.act s args).2 with
    | error e =>
      obtain ⟨e0, rfl⟩ := act_error_shape s args e hr
      simp [Saga.executeFrom, chainedInputs, hr, Exc.isInstanceOfSagaError, actArgs]
    | ok result =>
      simp [Saga.executeFrom, chainedInputs, hr, actArgs, ih]

/-- C3 (amended): the running argument mapping is replaced, not accumulated —
each step's `act` is invoked with exactly the previous step's returned
mapping (`None` coerced to `{}`), and only the first step receives the
`execute` call arguments; inside `act` these are merged over the step's
construction arguments with the incoming values winning, and step outputs
are accumulated only into `result_args`. -/
theorem running_args_replaced {V : Type} (saga : Saga V) (args : Dict V) :
    actArgs (Saga.execute saga args).2 = chainedInputs saga.action_steps args :=
  executeFrom_actArgs saga.action_steps 0 args [] {}

/-! ## Lemmas for the None-as-empty-mapping equivalence (C9) -/

/-- `compExceptions` only looks at the outcome of each step's `compensate`. -/
theorem compExceptions_eq_view {V : Type} (s : List (Nat × ActionStep V)) :
    compExceptions s = (compView s).filterMap
      (fun q => match q.2 with
        | Except.error e => some e
        | Except.ok _ => none) := by
  induction s with
  | nil => rfl
  | cons p rest ih =>
    cases h : ActionStep.compensate p.2 with
    | error e => simp [compExceptions, compView, List.filterMap_cons, h, ih]
    | ok b => simp [compExceptions, compView, List.filterMap_cons, h, ih]

/-- The compensation events only depend on the steps' indices, which
`compView` retains. -/
theorem compMap_eq_view {V : Type} (s : List (Nat × ActionStep V)) :
    ((s.map fun p => Ev.comp p.1) : List (Ev V)) =
      (compView s).map fun q => Ev.comp q.1 := by
  simp [compView, List.map_map, Function.comp]

/-- `__run_compensation` cannot distinguish two completed-step lists whose
indices and `compensate` outcomes agree. -/
theorem runCompensation_congr {V : Type} (s1 s2 : List (Nat × ActionStep V))
    (res : SagaResult V) (h : compView s1 = compView s2) :
    Saga.runCompensation s1 res = Saga.runCompensation s2 res := by
  rw [runCompensation_spec, runCompensation_spec, compExceptions_eq_view s1,
      compExceptions_eq_view s2, compMap_eq_view s1, compMap_eq_view s2, h]

/-- The execution loop uses `actions_done` only through
`__run_compensation`, so two `actions_done` lists with the same `compView`
are interchangeable. -/
theorem executeFrom_done_congr {V : Type} (steps : List (ActionStep V)) :
    ∀ i args done1 done2 res, compView done1 = compView done2 →
      Saga.executeFrom i steps args done1 res =
        Saga.executeFrom i steps args done2 res := by
  induction steps with
  | nil => intro i args d1 d2 res h; rfl
  | cons s rest ih =>
    intro i args d1 d2 res h
    have hv : compView (d1 ++ [(i, (ActionStep.act s args).1)]) =
        compView (d2 ++ [(i, (ActionStep.act s args).1)]) := by
      simp only [compView, List.map_append] at h ⊢
      rw [h]
    cases hr : (ActionStep.act s args).2 with
    | error e =>
      simp only [Saga.executeFrom, hr]
      cases hi : e.isInstanceOfSagaError with
      | true => simp [hi, runCompensation_congr _ _ _ hv]
      | false => simp [hi]
    | ok result =>
      simp only [Saga.executeFrom, hr]
      rw [ih (i+1) (result.getD []) _ _ _ hv]

/-- Swapping a step for its `withEmptyForNone` variant at the head of the
remaining list leaves the execution loop's behaviour unchanged. -/
theorem executeFrom_none_eq_empty {V : Type} (s : ActionStep V)
    (post : List (ActionStep V)) (i : Nat) (args : Dict V)
    (done : List (Nat × ActionStep V)) (res : SagaResult V) :
    Saga.executeFrom i (s :: post) args done res =
      Saga.executeFrom i (ActionStep.withEmptyForNone s :: post) args done res := by
  have hc1 : ActionStep.compensate ((ActionStep.act s args).1) =
      s.compensation (Dict.update s.action_step_kwargs args) := by
    cases h0 : s.action (Dict.update s.action_step_kwargs args) <;>
      simp [ActionStep.act, ActionStep.compensate, h0]
  have hc2 : ActionStep.compensate ((ActionStep.act (ActionStep.withEmptyForNone s) args).1) =
      s.compensation (Dict.update s.action_step_kwargs args) := by
    cases h0 : s.action (Dict.update s.action_step_kwargs args) with
    | error e =>
      simp [ActionStep.act, ActionStep.compensate, ActionStep.withEmptyForNone, h0]
    | ok result =>
      cases result with
      | none =>
        simp [ActionStep.act, ActionStep.compensate, ActionStep.withEmptyForNone, h0]
      | some d =>
        simp [ActionStep.act, ActionStep.compensate, ActionStep.withEmptyForNone, h0]
  have hcv : compView (done ++ [(i, (ActionStep.act s args).1)]) =
      compView (done ++ [(i, (ActionStep.act (ActionStep.withEmptyForNone s) args).1)]) := by
    simp [compView, hc1, hc2]
  cases h0 : s.action (Dict.update s.action_step_kwargs args) with
  | error e =>
    have ha : (ActionStep.act s args).2 =
        Except.error (Exc.actionError s.className e) := by
      simp [ActionStep.act, h0]
    have hb : (ActionStep.act (ActionStep.withEmptyForNone s) args).2 =
        Except.error (Exc.actionError s.className e) := by
      simp [ActionStep.act, ActionStep.withEmptyForNone, h0]
    simp [Saga.executeFrom, ha, hb, Exc.isInstanceOfSagaError]
  | ok result =>
    cases result with
    | none =>
      have ha : (ActionStep.act s args).2 = Except.ok (none : Option (Dict V)) := by
        simp [ActionStep.act, h0]
      have hb : (ActionStep.act (ActionStep.withEmptyForNone s) args).2 =
          Except.ok (some ([] : Dict V)) := by
        simp [ActionStep.act, ActionStep.withEmptyForNone, h0]
      simp only [Saga.executeFrom, ha, hb, Option.getD]
      rw [executeFrom_done_congr post (i+1) [] _ _ _ hcv]
    | some d =>
      have ha : (ActionStep.act s args).2 = Except.ok (some d) := by
        simp [ActionStep.act, h0]
      have hb : (ActionStep.act (ActionStep.withEmptyForNone s) args).2 =
          Except.ok (some d) := by
        simp [ActionStep.act, ActionStep.withEmptyForNone, h0]
      simp only [Saga.executeFrom, ha, hb, Option.getD]
      rw [executeFrom_done_congr post (i+1) d _ _ _ hcv]

/-- The swap of the previous lemma is available at any position of the step
list. -/
theorem executeFrom_middle_none {V : Type} (s : ActionStep V)
    (post : List (ActionStep V)) (pre : List (ActionStep V)) :
    ∀ i args done res,
      Saga.executeFrom i (pre ++ s :: post) args done res =
        Saga.executeFrom i (pre ++ ActionStep.withEmptyForNone s :: post) args done res := by
  induction pre with
  | nil => intro i args done res; exact executeFrom_none_eq_empty s post i args done res
  | cons p pre ih =>
    intro i args done res
    show Saga.executeFrom i (p :: (pre ++ s :: post)) args done res =
      Saga.executeFrom i (p :: (pre ++ ActionStep.withEmptyForNone s :: post)) args done res
    cases hr : (ActionStep.act p args).2 with
    | error e => simp [Saga.executeFrom, hr]
    | ok result =>
      simp only [Saga.executeFrom, hr]
      rw [ih]

/-- C9 (amended): a step whose action returns `None` behaves exactly as if
it had returned the empty mapping — the whole execution (result and trace)
is unchanged when the step is replaced by its `withEmptyForNone` variant.
In particular `result_args` is unaffected by the step; but the empty (or
`None`) output replaces the running mapping handed to the next step, it
does not leave previously propagated values available there. -/
theorem none_equivalent_to_empty_mapping {V : Type} (s : ActionStep V)
    (pre post : List (ActionStep V)) (args : Dict V) :
    Saga.execute ⟨pre ++ s :: post⟩ args =
      Saga.execute ⟨pre ++ ActionStep.withEmptyForNone s :: post⟩ args :=
  executeFrom_middle_none s post pre 0 args [] {}
